import Mathlib

/-!
# g2log worker (`src/g2log/src/g2logworker.cpp`)

A shallow embedding of the background log worker: the message fan-out
(`LogWorkerImpl::bgSave`), the fatal shut-down routine (`LogWorkerImpl::bgFatal`)
and the thread-facing entry points of `LogWorker` (`save`, `fatal`,
`addWrappedSink`, the destructor), which marshal every operation into a
callback on the queue of the active object `_bg`.

The process is a record holding the sink registry, the shutdown flag, the
status of the process and the trace of the effects the code performs
(writes to `std::cerr`, `sink->send`, `_sinks.clear()`, the call of the
termination primitive, `perror`), in execution order.
-/

namespace g2

/-! ## Data model -/

/-- A log message, `g2::LogMessage`: the text behind `write()` / `message()`
and the text of its level behind `level()`. -/
structure LogMessage where
  message : String
  level : String
deriving DecidableEq, Repr

/-- A fatal message, `g2::FatalMessage`: a log message together with the
description of the signal (`signal()`) and the signal number (`_signal_id`). -/
structure FatalMessage extends LogMessage where
  signal : String
  _signal_id : Int
deriving DecidableEq, Repr

/-- A registry entry, `std::shared_ptr<g2::internal::SinkWrapper>`: the identity
of the sink object the pointer refers to. -/
abbrev SinkWrapper := Nat

/-- The effects of the worker that are visible from outside. -/
inductive Event where
  /-- The call `g2::internal::shutDownLogging()`. -/
  | shutDownLogging
  /-- The output `std::cerr << s`. -/
  | cerr (s : String)
  /-- The call `sink->send(LogMessageMover(std::move(msg)))`. -/
  | send (sink : SinkWrapper) (msg : LogMessage)
  /-- The statement `_sinks.clear()`. -/
  | sinksClear
  /-- The call `internal::exitWithDefaultSignalHandler(fatal_signal_id)`. -/
  | exitWithDefaultSignalHandler (signal_id : Int)
  /-- The call `perror(s)`. -/
  | perror (s : String)
deriving DecidableEq, Repr

/-- Whether the process is still executing code. -/
inductive Status where
  | running
  | exited (signal_id : Int)
deriving DecidableEq, Repr

/-- The collaborators the file calls but does not define.
`toString` is `LogMessage::toString()`; `exitReturns id` tells whether the call
`internal::exitWithDefaultSignalHandler(id)` comes back to its caller (the
primitive failed to end the process) instead of terminating the process. -/
structure Collaborators where
  toString : LogMessage → String
  exitReturns : Int → Bool

/-- The state of the process as far as the worker is concerned: `_sinks` of
`LogWorkerImpl`, the shutdown flag, the status of the process, and the trace. -/
structure Process where
  _sinks : List SinkWrapper
  shutdown : Bool
  status : Status
  trace : List Event
deriving DecidableEq, Repr

/-- Append one effect to the trace. -/
def Process.emit (w : Process) (e : Event) : Process :=
  { w with trace := w.trace ++ [e] }

/-! ## Primitives used by the worker -/

/-- Modelled from the spec: `g2::internal::shutDownLogging()` is not defined in
this file; §4.4 step 1 says it flips the Shutdown Flag to true, irreversibly. -/
def shutDownLogging (w : Process) : Process :=
  { w with shutdown := true, trace := w.trace ++ [Event.shutDownLogging] }

/-- Modelled from the spec: `g2::internal::shutDownLoggingForActiveOnly(this)` is
not defined in this file; §4.2 teardown (a) says it marks the pipeline so that no
later dispatch is accepted. It runs on the caller's thread, so it leaves no entry
in the trace of the worker. -/
def shutDownLoggingForActiveOnly (w : Process) : Process :=
  { w with shutdown := true }

/-- The copy constructor `LogMessage msg(*(uniqueMsg))`: a new value with the same
fields. -/
def LogMessage.copy (uniqueMsg : LogMessage) : LogMessage :=
  { message := uniqueMsg.message, level := uniqueMsg.level }

/-- The call `sink->send(LogMessageMover(std::move(msg)))`. -/
def sinkSend (sink : SinkWrapper) (msg : LogMessage) (w : Process) : Process :=
  w.emit (Event.send sink msg)

/-- The statement `_sinks.clear()`. -/
def sinksClear (w : Process) : Process :=
  { w with _sinks := [], trace := w.trace ++ [Event.sinksClear] }

/-- The statement `_sinks.push_back(sink)`. -/
def sinksPushBack (sink : SinkWrapper) (w : Process) : Process :=
  { w with _sinks := w._sinks ++ [sink] }

/-- The call `internal::exitWithDefaultSignalHandler(id)` followed by the rest `k`
of the calling function: the rest runs only if the call returns, otherwise the
process has exited with the signal. -/
def exitWithDefaultSignalHandler (env : Collaborators) (signal_id : Int)
    (k : Process → Process) (w : Process) : Process :=
  let w1 := w.emit (Event.exitWithDefaultSignalHandler signal_id)
  if env.exitReturns signal_id then k w1 else { w1 with status := Status.exited signal_id }

/-! ## `LogWorkerImpl` -/

/-- The loop `for (auto& sink : _sinks) { LogMessage msg(*(uniqueMsg)); sink->send(..); }`
of lines 30-33 and 56-59. -/
def forEachSinkSend (uniqueMsg : LogMessage) (w : Process) : Process :=
  w._sinks.foldl (fun acc sink => sinkSend sink (LogMessage.copy uniqueMsg) acc) w

/-- The function `LogWorkerImpl::bgSave`, lines 27-40. -/
def bgSave (env : Collaborators) (msgPtr : LogMessage) (w : Process) : Process :=
  let uniqueMsg := msgPtr
  let w1 := forEachSinkSend uniqueMsg w
  if w1._sinks.isEmpty then
    let err_msg := "g2logworker has no sinks. Message: ["
    let err_msg := (err_msg.append (env.toString uniqueMsg)).append "]\n"
    w1.emit (Event.cerr err_msg)
  else
    w1

/-- The two `write().append(..)` statements of lines 51-53 applied to the message
part of the fatal message: the message that `bgFatal` prints and sends. -/
def fatalEnriched (msgPtr : FatalMessage) : LogMessage :=
  let signal := msgPtr.signal
  let uniqueMsg := msgPtr.toLogMessage
  let uniqueMsg := { uniqueMsg with
    message := (uniqueMsg.message.append "\nExiting after fatal event  (").append uniqueMsg.level }
  { uniqueMsg with
    message := ((uniqueMsg.message.append "). Exiting with signal: ").append signal).append
      "\nLog content flushed flushed sucessfully to sink\n\n" }

/-- The argument of the `perror` call of line 68. -/
def perrorText : String :=
  "g2log exited after receiving FATAL trigger. Flush message status: "

/-- The function `LogWorkerImpl::bgFatal`, lines 42-69. -/
def bgFatal (env : Collaborators) (msgPtr : FatalMessage) (w : Process) : Process :=
  let w1 := shutDownLogging w
  let fatal_signal_id := msgPtr._signal_id
  let uniqueMsg := fatalEnriched msgPtr
  let w2 := w1.emit (Event.cerr uniqueMsg.message)
  let w3 := forEachSinkSend uniqueMsg w2
  let w4 := sinksClear w3
  exitWithDefaultSignalHandler env fatal_signal_id (fun w5 => w5.emit (Event.perror perrorText)) w4

/-! ## The active object and `LogWorker` -/

/-- The callbacks that `LogWorker` puts on the queue of `_bg`. -/
inductive Callback where
  /-- The lambda `[this, msg] {_impl.bgSave(msg); }`. -/
  | bgSave (msg : LogMessage)
  /-- The lambda `[this, fatal_message] {_impl.bgFatal(fatal_message); }`. -/
  | bgFatal (fatal_message : FatalMessage)
  /-- The lambda `bg_addsink_call`: `[this, sink] {_impl._sinks.push_back(sink);}`. -/
  | bg_addsink_call (sink : SinkWrapper)
  /-- The lambda `bg_clear_sink_call`: `[this] { _impl._sinks.clear(); }`. -/
  | bg_clear_sink_call
deriving DecidableEq, Repr

/-- Execute one callback on the worker. -/
def Callback.exec (env : Collaborators) : Callback → Process → Process
  | Callback.bgSave msg, w => g2.bgSave env msg w
  | Callback.bgFatal fatal_message, w => g2.bgFatal env fatal_message w
  | Callback.bg_addsink_call sink, w => sinksPushBack sink w
  | Callback.bg_clear_sink_call, w => sinksClear w

/-- The loop of the active object: the queued callbacks are executed one at a
time in arrival order, as long as the process is running. -/
def Active.run (env : Collaborators) : List Callback → Process → Process
  | [], w => w
  | c :: cs, w =>
    match w.status with
    | Status.running => Active.run env cs (c.exec env w)
    | Status.exited _ => w

/-- A `LogWorker`: the queue of its active object `_bg` (callbacks sent and not
yet executed) and the state of the process. -/
structure LogWorker where
  queue : List Callback
  proc : Process
deriving DecidableEq, Repr

/-- The function `LogWorker::createWithNoSink`, lines 105-107: a worker with an empty registry. -/
def LogWorker.createWithNoSink : LogWorker :=
  { queue := [],
    proc := { _sinks := [], shutdown := false, status := Status.running, trace := [] } }

/-- The call `_impl._bg->send(callback)`: the callback is put at the end of the queue. -/
def LogWorker.bgSend (callback : Callback) (lw : LogWorker) : LogWorker :=
  { lw with queue := lw.queue ++ [callback] }

/-- The pair `g2::spawn_task(callback, _impl._bg.get())` and `wait()` on the
returned future: the callback is queued and the caller goes on once the worker has
executed the queue up to and including it. -/
def LogWorker.spawnTaskAndWait (env : Collaborators) (callback : Callback) (lw : LogWorker) :
    LogWorker :=
  { queue := [], proc := Active.run env (lw.queue ++ [callback]) lw.proc }

/-- The function `LogWorker::save`, lines 88-89. -/
def LogWorker.save (msg : LogMessage) (lw : LogWorker) : LogWorker :=
  lw.bgSend (Callback.bgSave msg)

/-- The function `LogWorker::addWrappedSink`, lines 94-98. -/
def LogWorker.addWrappedSink (env : Collaborators) (sink : SinkWrapper) (lw : LogWorker) :
    LogWorker :=
  lw.spawnTaskAndWait env (Callback.bg_addsink_call sink)

/-- The function `LogWorker::~LogWorker`, lines 71-86. -/
def LogWorker.destroy (env : Collaborators) (lw : LogWorker) : LogWorker :=
  let lw1 := { lw with proc := shutDownLoggingForActiveOnly lw.proc }
  lw1.spawnTaskAndWait env Callback.bg_clear_sink_call

/-- The worker executes everything that is queued. -/
def LogWorker.drain (env : Collaborators) (lw : LogWorker) : LogWorker :=
  { queue := [], proc := Active.run env lw.queue lw.proc }


/-! ## Observations on a trace -/

/-- The messages handed to the sink `sink`, in the order of the trace. -/
def received (sink : SinkWrapper) (tr : List Event) : List LogMessage :=
  tr.filterMap fun e =>
    match e with
    | Event.send s msg => if s = sink then some msg else none
    | _ => none

/-- All hand-overs of the trace, in order: which sink was given which message. -/
def deliveries (tr : List Event) : List (SinkWrapper × LogMessage) :=
  tr.filterMap fun e =>
    match e with
    | Event.send s msg => some (s, msg)
    | _ => none

/-- The texts written to `std::cerr`, in the order of the trace. -/
def diagnostics (tr : List Event) : List String :=
  tr.filterMap fun e =>
    match e with
    | Event.cerr s => some s
    | _ => none

/-- The signal numbers with which the termination primitive was called, in the
order of the trace. -/
def terminations (tr : List Event) : List Int :=
  tr.filterMap fun e =>
    match e with
    | Event.exitWithDefaultSignalHandler id => some id
    | _ => none

/-- The text `needle` occurs in the text `hay`. -/
def Contains (hay needle : String) : Prop :=
  needle.data <:+: hay.data

instance decidableContains (hay needle : String) : Decidable (Contains hay needle) := by
  unfold Contains
  infer_instance

/-- The text that `bgSave` writes to `std::cerr` when the registry is empty. -/
def noSinksText (env : Collaborators) (msg : LogMessage) : String :=
  "g2logworker has no sinks. Message: [" ++ env.toString msg ++ "]\n"

/-- The hand-overs of one round of the loop over the registry `sinks`. -/
def sendEvents (sinks : List SinkWrapper) (msg : LogMessage) : List Event :=
  sinks.map fun sink => Event.send sink msg

/-- The events of one execution of `bgSave` on the registry `sinks`. -/
def fanoutEvents (env : Collaborators) (sinks : List SinkWrapper) (msg : LogMessage) :
    List Event :=
  match sinks with
  | [] => [Event.cerr (noSinksText env msg)]
  | _ :: _ => sendEvents sinks msg

/-- The termination trailer that lines 51-53 append to a fatal message with
level text `level` and signal description `signal`. -/
def fatalTrailer (level signal : String) : String :=
  "\nExiting after fatal event  (" ++ level ++ "). Exiting with signal: " ++ signal ++
    "\nLog content flushed flushed sucessfully to sink\n\n"

/-- The state in which `bgFatal` calls the termination primitive. -/
def beforeExit (fm : FatalMessage) (w : Process) : Process :=
  { w with
    _sinks := []
    shutdown := true
    trace := w.trace ++ [Event.shutDownLogging, Event.cerr (fatalEnriched fm).message] ++
      sendEvents w._sinks (fatalEnriched fm) ++ [Event.sinksClear] }

/-- The events that the step from `before` to `after` added to the trace. -/
def newEvents (before after : Process) : List Event :=
  after.trace.drop before.trace.length

/-- A call of the thread-facing interface that neither is fatal nor tears down. -/
inductive Request where
  /-- The call `addWrappedSink(sink)`. -/
  | addWrappedSink (sink : SinkWrapper)
  /-- The call `save(msg)`. -/
  | save (msg : LogMessage)
deriving DecidableEq, Repr

/-- Perform one call on the worker. -/
def LogWorker.request (env : Collaborators) (lw : LogWorker) : Request → LogWorker
  | Request.addWrappedSink sink => lw.addWrappedSink env sink
  | Request.save msg => lw.save msg

/-- Perform a sequence of calls, one after the other. -/
def LogWorker.requests (env : Collaborators) (reqs : List Request) (lw : LogWorker) : LogWorker :=
  reqs.foldl (fun acc r => acc.request env r) lw

/-- The sinks that a sequence of calls registers, in the order of the calls. -/
def addedSinks : List Request → List SinkWrapper
  | [] => []
  | Request.addWrappedSink sink :: rest => sink :: addedSinks rest
  | Request.save _ :: rest => addedSinks rest

/-- The messages that a sequence of calls saves, in the order of the calls. -/
def savedMessages : List Request → List LogMessage
  | [] => []
  | Request.addWrappedSink _ :: rest => savedMessages rest
  | Request.save msg :: rest => msg :: savedMessages rest

/-- The callback that a call puts on the queue. -/
def Request.callback : Request → Callback
  | Request.addWrappedSink sink => Callback.bg_addsink_call sink
  | Request.save msg => Callback.bgSave msg

/-- The events of executing the callbacks of `reqs` in order, starting with the
registry `sinks`. -/
def requestEvents (env : Collaborators) : List SinkWrapper → List Request → List Event
  | _, [] => []
  | sinks, Request.addWrappedSink sink :: rest => requestEvents env (sinks ++ [sink]) rest
  | sinks, Request.save msg :: rest => fanoutEvents env sinks msg ++ requestEvents env sinks rest

/-- Scenario A in general: register the sinks, save the messages, tear down. -/
def registerSaveTeardown (env : Collaborators) (sinks : List SinkWrapper)
    (msgs : List LogMessage) : LogWorker :=
  let lw := sinks.foldl (fun acc sink => acc.addWrappedSink env sink) LogWorker.createWithNoSink
  let lw := msgs.foldl (fun acc msg => acc.save msg) lw
  lw.destroy env

/-- The state of `bgFatal` after line 55: the flag is set and the enriched text is
written to `std::cerr`; the loop over the registry comes next. -/
def fatalBeforeLoop (fm : FatalMessage) (w : Process) : Process :=
  (shutDownLogging w).emit (Event.cerr (fatalEnriched fm).message)

/-- The queue holds saves only and the process is running. -/
def OnlySavesQueued (lw : LogWorker) : Prop :=
  lw.proc.status = Status.running ∧
    ∃ pend : List Request, lw.queue = pend.map Request.callback ∧ addedSinks pend = []

/-! ## Concrete values -/

/-- A rendering for `toString()`: the level, then the text in quotes. -/
def sampleToString (msg : LogMessage) : String :=
  msg.level ++ "\t\"" ++ msg.message ++ "\""

/-- Collaborators whose termination primitive ends the process. -/
def sampleEnv : Collaborators :=
  { toString := sampleToString, exitReturns := fun _ => false }

/-- The message of `save("A")`. -/
def msgA : LogMessage := { message := "A", level := "INFO" }

/-- The message of `save("B")`. -/
def msgB : LogMessage := { message := "B", level := "INFO" }

/-- The fatal message of scenario B. -/
def boom : FatalMessage :=
  { message := "boom", level := "FATAL", signal := "SIGSEGV", _signal_id := 11 }

/-- A running process with the given registry and nothing traced yet. -/
def freshProcess (sinks : List SinkWrapper) : Process :=
  { _sinks := sinks, shutdown := false, status := Status.running, trace := [] }

/-! ## Basic lemmas -/

theorem copy_eq (msg : LogMessage) : LogMessage.copy msg = msg := rfl

theorem string_append_def (a b : String) : a.append b = a ++ b := rfl

theorem foldl_sinkSend (msg : LogMessage) (l : List SinkWrapper) (w : Process) :
    l.foldl (fun acc sink => sinkSend sink (LogMessage.copy msg) acc) w
      = { w with trace := w.trace ++ sendEvents l msg } := by
  induction l generalizing w with
  | nil => simp [sendEvents]
  | cons s l ih =>
    rw [List.foldl_cons, ih]
    simp [sinkSend, Process.emit, sendEvents, copy_eq]

theorem forEachSinkSend_eq (msg : LogMessage) (w : Process) :
    forEachSinkSend msg w = { w with trace := w.trace ++ sendEvents w._sinks msg } :=
  foldl_sinkSend msg w._sinks w

theorem bgSave_eq (env : Collaborators) (msg : LogMessage) (w : Process) :
    bgSave env msg w = { w with trace := w.trace ++ fanoutEvents env w._sinks msg } := by
  unfold bgSave
  simp only [forEachSinkSend_eq]
  cases h : w._sinks with
  | nil => simp [fanoutEvents, sendEvents, Process.emit, noSinksText, string_append_def]
  | cons s l => simp [fanoutEvents]

theorem forEachSinkSend_of_empty (msg : LogMessage) (w : Process) (h : w._sinks = []) :
    forEachSinkSend msg w = w := by
  unfold forEachSinkSend
  rw [h]
  rfl

theorem bgSave_of_empty (env : Collaborators) (msg : LogMessage) (w : Process)
    (h : w._sinks = []) : bgSave env msg w = w.emit (Event.cerr (noSinksText env msg)) := by
  rw [bgSave_eq]
  cases w
  simp only at h
  subst h
  rfl

theorem run_exited (env : Collaborators) (cs : List Callback) (w : Process) (id : Int)
    (h : w.status = Status.exited id) : Active.run env cs w = w := by
  cases cs with
  | nil => rfl
  | cons c cs => simp [Active.run, h]

theorem run_cons_running (env : Collaborators) (c : Callback) (cs : List Callback)
    (w : Process) (h : w.status = Status.running) :
    Active.run env (c :: cs) w = Active.run env cs (c.exec env w) := by
  simp [Active.run, h]

theorem fatalEnriched_message (fm : FatalMessage) :
    (fatalEnriched fm).message = fm.message ++ fatalTrailer fm.level fm.signal := by
  simp [fatalEnriched, fatalTrailer, string_append_def, String.append_assoc]

theorem fatalEnriched_level (fm : FatalMessage) : (fatalEnriched fm).level = fm.level := rfl

theorem bgFatal_eq (env : Collaborators) (fm : FatalMessage) (w : Process) :
    bgFatal env fm w = exitWithDefaultSignalHandler env fm._signal_id
      (fun w5 => w5.emit (Event.perror perrorText)) (beforeExit fm w) := by
  unfold bgFatal
  simp [forEachSinkSend_eq, shutDownLogging, sinksClear, Process.emit, beforeExit]


theorem newEvents_of_trace {before after : Process} {evs : List Event}
    (h : after.trace = before.trace ++ evs) : newEvents before after = evs := by
  simp [newEvents, h]

theorem deliveries_sendEvents (sinks : List SinkWrapper) (msg : LogMessage) :
    deliveries (sendEvents sinks msg) = sinks.map fun sink => (sink, msg) := by
  induction sinks with
  | nil => rfl
  | cons s l ih =>
    simp only [sendEvents, List.map_cons] at ih ⊢
    simp only [deliveries, List.filterMap_cons] at ih ⊢
    rw [ih]

theorem diagnostics_sendEvents (sinks : List SinkWrapper) (msg : LogMessage) :
    diagnostics (sendEvents sinks msg) = [] := by
  induction sinks with
  | nil => rfl
  | cons s l ih =>
    simp only [sendEvents, List.map_cons] at ih ⊢
    simp only [diagnostics, List.filterMap_cons] at ih ⊢
    exact ih

theorem deliveries_append (a b : List Event) :
    deliveries (a ++ b) = deliveries a ++ deliveries b := by
  simp [deliveries]

theorem diagnostics_append (a b : List Event) :
    diagnostics (a ++ b) = diagnostics a ++ diagnostics b := by
  simp [diagnostics]

theorem terminations_append (a b : List Event) :
    terminations (a ++ b) = terminations a ++ terminations b := by
  simp [terminations]

theorem received_append (sink : SinkWrapper) (a b : List Event) :
    received sink (a ++ b) = received sink a ++ received sink b := by
  simp [received]

theorem terminations_sendEvents (sinks : List SinkWrapper) (msg : LogMessage) :
    terminations (sendEvents sinks msg) = [] := by
  induction sinks with
  | nil => rfl
  | cons s l ih =>
    simp only [sendEvents, List.map_cons] at ih ⊢
    simp only [terminations, List.filterMap_cons] at ih ⊢
    exact ih

theorem contains_mid (a b c : String) : Contains (a ++ b ++ c) b :=
  ⟨a.data, c.data, by simp [String.data_append]⟩

theorem contains_trans {a b c : String} (h1 : Contains a b) (h2 : Contains b c) :
    Contains a c :=
  List.IsInfix.trans h2 h1

/-- C2: with a non-empty registry, one execution of `bgSave` hands the message once
to each registry entry, in registration order; each hand-over carries a message
equal to the original; nothing goes to `std::cerr`; nothing else changes. -/
theorem bgSave_hands_one_copy_to_each_sink (env : Collaborators) (msg : LogMessage)
    (w : Process) (h : w._sinks ≠ []) :
    bgSave env msg w
        = { w with trace := w.trace ++ w._sinks.map (fun sink => Event.send sink msg) }
      ∧ deliveries (newEvents w (bgSave env msg w)) = w._sinks.map (fun sink => (sink, msg))
      ∧ diagnostics (newEvents w (bgSave env msg w)) = [] := by
  have hf : fanoutEvents env w._sinks msg = sendEvents w._sinks msg := by
    cases hs : w._sinks with
    | nil => exact absurd hs h
    | cons s l => rfl
  have ht : (bgSave env msg w).trace = w.trace ++ sendEvents w._sinks msg := by
    rw [bgSave_eq, hf]
  refine ⟨?_, ?_, ?_⟩
  · rw [bgSave_eq, hf]; rfl
  · rw [newEvents_of_trace ht, deliveries_sendEvents]
  · rw [newEvents_of_trace ht, diagnostics_sendEvents]

/-- C6: with an empty registry, one execution of `bgSave` writes exactly one text to
`std::cerr`, namely the no-sinks notice around `toString()` of the message, which
contains the text of the message whenever `toString()` does; no sink is handed
anything, and the call returns with the process in the status it had. -/
theorem bgSave_empty_registry_one_diagnostic (env : Collaborators) (msg : LogMessage)
    (w : Process) (h : w._sinks = []) (hs : Contains (env.toString msg) msg.message) :
    bgSave env msg w = w.emit (Event.cerr (noSinksText env msg))
      ∧ diagnostics (newEvents w (bgSave env msg w)) = [noSinksText env msg]
      ∧ Contains (noSinksText env msg) msg.message
      ∧ deliveries (newEvents w (bgSave env msg w)) = []
      ∧ (bgSave env msg w).status = w.status := by
  have ht : (bgSave env msg w).trace = w.trace ++ [Event.cerr (noSinksText env msg)] := by
    rw [bgSave_eq, h]; rfl
  refine ⟨bgSave_of_empty env msg w h, ?_, ?_, ?_, ?_⟩
  · rw [newEvents_of_trace ht]; rfl
  · exact contains_trans (contains_mid _ _ _) hs
  · rw [newEvents_of_trace ht]; rfl
  · rw [bgSave_eq]


/-- The events of one execution of `bgFatal`, in order. -/
theorem bgFatal_trace (env : Collaborators) (fm : FatalMessage) (w : Process) :
    (bgFatal env fm w).trace = w.trace ++
      ([Event.shutDownLogging, Event.cerr (fatalEnriched fm).message] ++
        sendEvents w._sinks (fatalEnriched fm) ++
        [Event.sinksClear, Event.exitWithDefaultSignalHandler fm._signal_id] ++
        (if env.exitReturns fm._signal_id then [Event.perror perrorText] else [])) := by
  rw [bgFatal_eq]
  unfold exitWithDefaultSignalHandler
  cases h : env.exitReturns fm._signal_id <;>
    simp [Process.emit, beforeExit, List.append_assoc]

theorem fatalTrailer_contains_level (level signal : String) :
    Contains (fatalTrailer level signal) level := by
  refine ⟨"\nExiting after fatal event  (".data,
    ("). Exiting with signal: " ++ signal ++
      "\nLog content flushed flushed sucessfully to sink\n\n").data, ?_⟩
  simp [fatalTrailer, String.data_append]

theorem fatalTrailer_contains_signal (level signal : String) :
    Contains (fatalTrailer level signal) signal := by
  refine ⟨("\nExiting after fatal event  (" ++ level ++ "). Exiting with signal: ").data,
    "\nLog content flushed flushed sucessfully to sink\n\n".data, ?_⟩
  simp [fatalTrailer, String.data_append]

theorem fatalTrailer_contains_flushed (level signal : String) :
    Contains (fatalTrailer level signal) "Log content flushed flushed sucessfully to sink" := by
  refine ⟨("\nExiting after fatal event  (" ++ level ++ "). Exiting with signal: " ++
    signal ++ "\n").data, "\n\n".data, ?_⟩
  simp [fatalTrailer, String.data_append]

theorem contains_right (a b c : String) (h : Contains b c) : Contains (a ++ b) c := by
  obtain ⟨p, q, hpq⟩ := h
  exact ⟨a.data ++ p, q, by simp [String.data_append, ← hpq, List.append_assoc]⟩

theorem contains_left (a b : String) : Contains (a ++ b) a :=
  ⟨[], b.data, by simp [String.data_append]⟩

/-- What the observations see of the events of one execution of `bgFatal`. -/
theorem fatal_events_observed (cond : Bool) (text : String) (sinks : List SinkWrapper)
    (msg : LogMessage) (id : Int) :
    deliveries ([Event.shutDownLogging, Event.cerr text] ++ sendEvents sinks msg ++
        [Event.sinksClear, Event.exitWithDefaultSignalHandler id] ++
        (if cond then [Event.perror perrorText] else []))
        = sinks.map (fun sink => (sink, msg))
      ∧ diagnostics ([Event.shutDownLogging, Event.cerr text] ++ sendEvents sinks msg ++
        [Event.sinksClear, Event.exitWithDefaultSignalHandler id] ++
        (if cond then [Event.perror perrorText] else [])) = [text]
      ∧ terminations ([Event.shutDownLogging, Event.cerr text] ++ sendEvents sinks msg ++
        [Event.sinksClear, Event.exitWithDefaultSignalHandler id] ++
        (if cond then [Event.perror perrorText] else [])) = [id] := by
  have d1 : deliveries [Event.shutDownLogging, Event.cerr text] = [] := rfl
  have d2 : deliveries [Event.sinksClear, Event.exitWithDefaultSignalHandler id] = [] := rfl
  have d3 : deliveries (if cond then [Event.perror perrorText] else []) = [] := by
    cases cond <;> rfl
  have g1 : diagnostics [Event.shutDownLogging, Event.cerr text] = [text] := rfl
  have g2 : diagnostics [Event.sinksClear, Event.exitWithDefaultSignalHandler id] = [] := rfl
  have g3 : diagnostics (if cond then [Event.perror perrorText] else []) = [] := by
    cases cond <;> rfl
  have t1 : terminations [Event.shutDownLogging, Event.cerr text] = [] := rfl
  have t2 : terminations [Event.sinksClear, Event.exitWithDefaultSignalHandler id] = [id] := rfl
  have t3 : terminations (if cond then [Event.perror perrorText] else []) = [] := by
    cases cond <;> rfl
  refine ⟨?_, ?_, ?_⟩
  · simp only [deliveries_append, deliveries_sendEvents, d1, d2, d3, List.append_nil,
      List.nil_append]
  · simp only [diagnostics_append, diagnostics_sendEvents, g1, g2, g3, List.append_nil,
      List.nil_append]
  · simp only [terminations_append, terminations_sendEvents, t1, t2, t3, List.append_nil,
      List.nil_append]

/-- C3: one execution of `bgFatal` hands to each registry entry, in registration
order, exactly one message; its text is the text of the fatal message followed by
the termination trailer, its level is unchanged; the trailer contains the level,
the description of the signal and the sentence that the log content was flushed to
the sink, so the delivered text contains the original text and the signal. -/
theorem bgFatal_delivers_text_and_trailer (env : Collaborators) (fm : FatalMessage)
    (w : Process) :
    deliveries (newEvents w (bgFatal env fm w))
        = w._sinks.map (fun sink => (sink, fatalEnriched fm))
      ∧ (fatalEnriched fm).message = fm.message ++ fatalTrailer fm.level fm.signal
      ∧ (fatalEnriched fm).level = fm.level
      ∧ Contains (fatalTrailer fm.level fm.signal) fm.level
      ∧ Contains (fatalTrailer fm.level fm.signal) fm.signal
      ∧ Contains (fatalTrailer fm.level fm.signal)
          "Log content flushed flushed sucessfully to sink"
      ∧ Contains (fatalEnriched fm).message fm.message
      ∧ Contains (fatalEnriched fm).message fm.signal := by
  refine ⟨?_, fatalEnriched_message fm, rfl, fatalTrailer_contains_level _ _,
    fatalTrailer_contains_signal _ _, fatalTrailer_contains_flushed _ _, ?_, ?_⟩
  · rw [newEvents_of_trace (bgFatal_trace env fm w)]
    exact (fatal_events_observed _ _ _ _ _).1
  · rw [fatalEnriched_message]; exact contains_left _ _
  · rw [fatalEnriched_message]
    exact contains_right _ _ _ (fatalTrailer_contains_signal _ _)

/-- C2, at a concrete input: the registry `[1, 2]` and the message `"A"`. -/
theorem bgSave_hands_one_copy_to_each_sink_witness :
    (freshProcess [1, 2])._sinks ≠ []
      ∧ bgSave sampleEnv msgA (freshProcess [1, 2])
        = { freshProcess [1, 2] with trace := [Event.send 1 msgA, Event.send 2 msgA] } :=
  ⟨by decide,
    (bgSave_hands_one_copy_to_each_sink sampleEnv msgA (freshProcess [1, 2]) (by decide)).1⟩

/-- C6, at a concrete input: the empty registry and the message `"A"`. -/
theorem bgSave_empty_registry_one_diagnostic_witness :
    (freshProcess [])._sinks = []
      ∧ Contains (sampleEnv.toString msgA) msgA.message
      ∧ diagnostics (newEvents (freshProcess []) (bgSave sampleEnv msgA (freshProcess [])))
        = ["g2logworker has no sinks. Message: [INFO\t\"A\"]\n"] :=
  ⟨by decide, by decide,
    (bgSave_empty_registry_one_diagnostic sampleEnv msgA (freshProcess []) (by decide)
      (by decide)).2.1⟩

/-- C9 as stated fails on the empty registry: the loop of `bgFatal` adds no event,
while `bgSave` for the same enriched message and registry writes its no-sinks
notice to `std::cerr`; that notice is not among the texts `bgFatal` writes. -/
theorem fatal_loop_differs_from_bgSave_on_empty_registry :
    (fatalBeforeLoop boom (freshProcess []))._sinks = []
      ∧ newEvents (fatalBeforeLoop boom (freshProcess []))
          (forEachSinkSend (fatalEnriched boom) (fatalBeforeLoop boom (freshProcess []))) = []
      ∧ newEvents (fatalBeforeLoop boom (freshProcess []))
          (bgSave sampleEnv (fatalEnriched boom) (fatalBeforeLoop boom (freshProcess [])))
          = [Event.cerr (noSinksText sampleEnv (fatalEnriched boom))]
      ∧ diagnostics (newEvents (freshProcess []) (bgFatal sampleEnv boom (freshProcess [])))
          = [(fatalEnriched boom).message]
      ∧ (fatalEnriched boom).message ≠ noSinksText sampleEnv (fatalEnriched boom) := by
  refine ⟨rfl, rfl, rfl, rfl, ?_⟩
  decide

/-- C9, amended: the loop of `bgFatal` (step 5) runs on the registry the fatal
command found; whenever that registry is not empty it does exactly what `bgSave`
does for the enriched message; on the empty registry it does nothing, where
`bgSave` would write its no-sinks notice. -/
theorem fatal_loop_matches_bgSave_when_sinks_registered (env : Collaborators)
    (fm : FatalMessage) (w : Process) :
    bgFatal env fm w = exitWithDefaultSignalHandler env fm._signal_id
        (fun w5 => w5.emit (Event.perror perrorText))
        (sinksClear (forEachSinkSend (fatalEnriched fm) (fatalBeforeLoop fm w)))
      ∧ (fatalBeforeLoop fm w)._sinks = w._sinks
      ∧ (w._sinks ≠ [] →
          forEachSinkSend (fatalEnriched fm) (fatalBeforeLoop fm w)
            = bgSave env (fatalEnriched fm) (fatalBeforeLoop fm w))
      ∧ (w._sinks = [] →
          forEachSinkSend (fatalEnriched fm) (fatalBeforeLoop fm w) = fatalBeforeLoop fm w
            ∧ bgSave env (fatalEnriched fm) (fatalBeforeLoop fm w)
              = (fatalBeforeLoop fm w).emit
                  (Event.cerr (noSinksText env (fatalEnriched fm)))) := by
  have hs : (fatalBeforeLoop fm w)._sinks = w._sinks := rfl
  refine ⟨rfl, hs, ?_, ?_⟩
  · intro h
    rw [bgSave_eq, forEachSinkSend_eq, hs]
    cases hw : w._sinks with
    | nil => exact absurd hw h
    | cons s l => rfl
  · intro h
    have h2 : (fatalBeforeLoop fm w)._sinks = [] := hs.trans h
    exact ⟨forEachSinkSend_of_empty _ _ h2, bgSave_of_empty env _ _ h2⟩

/-- C9 amended, at a concrete input: the registry `[1, 2]`. -/
theorem fatal_loop_matches_bgSave_when_sinks_registered_witness :
    (freshProcess [1, 2])._sinks ≠ []
      ∧ forEachSinkSend (fatalEnriched boom) (fatalBeforeLoop boom (freshProcess [1, 2]))
        = bgSave sampleEnv (fatalEnriched boom) (fatalBeforeLoop boom (freshProcess [1, 2])) :=
  ⟨by decide,
    (fatal_loop_matches_bgSave_when_sinks_registered sampleEnv boom
      (freshProcess [1, 2])).2.2.1 (by decide)⟩

theorem run_append (env : Collaborators) (a b : List Callback) (w : Process) :
    Active.run env (a ++ b) w = Active.run env b (Active.run env a w) := by
  induction a generalizing w with
  | nil => rfl
  | cons c cs ih =>
    cases h : w.status with
    | running =>
      rw [List.cons_append, run_cons_running env c _ w h, run_cons_running env c _ w h, ih]
    | exited id =>
      rw [run_exited env _ w id h, run_exited env _ w id h, run_exited env _ w id h]

theorem addedSinks_append (a b : List Request) :
    addedSinks (a ++ b) = addedSinks a ++ addedSinks b := by
  induction a with
  | nil => rfl
  | cons r rs ih => cases r <;> simp [addedSinks, ih]

theorem savedMessages_append (a b : List Request) :
    savedMessages (a ++ b) = savedMessages a ++ savedMessages b := by
  induction a with
  | nil => rfl
  | cons r rs ih => cases r <;> simp [savedMessages, ih]

/-- Executing the callbacks of a sequence of calls on a running process. -/
theorem run_requests (env : Collaborators) (reqs : List Request) (w : Process)
    (h : w.status = Status.running) :
    Active.run env (reqs.map Request.callback) w
      = { _sinks := w._sinks ++ addedSinks reqs, shutdown := w.shutdown,
          status := Status.running, trace := w.trace ++ requestEvents env w._sinks reqs } := by
  induction reqs generalizing w with
  | nil =>
    cases w
    simp only at h
    subst h
    simp [Active.run, addedSinks, requestEvents]
  | cons r rs ih =>
    rw [List.map_cons, run_cons_running env _ _ w h]
    cases r with
    | addWrappedSink sink =>
      have hs : (sinksPushBack sink w).status = Status.running := h
      simp only [Request.callback, Callback.exec]
      rw [ih _ hs]
      simp [sinksPushBack, addedSinks, requestEvents]
    | save msg =>
      have hs : (bgSave env msg w).status = Status.running := by rw [bgSave_eq]; exact h
      simp only [Request.callback, Callback.exec]
      rw [ih _ hs, bgSave_eq]
      simp [addedSinks, requestEvents]

theorem request_keeps_registry (env : Collaborators) (r : Request) (lw : LogWorker)
    (h : OnlySavesQueued lw) :
    OnlySavesQueued (lw.request env r)
      ∧ (lw.request env r).proc._sinks = lw.proc._sinks ++ addedSinks [r] := by
  obtain ⟨hr, pend, hq, hp⟩ := h
  cases r with
  | addWrappedSink sink =>
    have hrun : (lw.request env (Request.addWrappedSink sink)).proc
        = Active.run env ((pend ++ [Request.addWrappedSink sink]).map Request.callback)
            lw.proc := by
      simp [LogWorker.request, LogWorker.addWrappedSink, LogWorker.spawnTaskAndWait, hq,
        Request.callback]
    rw [run_requests env _ _ hr] at hrun
    refine ⟨⟨?_, [], ?_, rfl⟩, ?_⟩
    · rw [hrun]
    · rfl
    · rw [hrun]
      simp [addedSinks_append, hp]
  | save msg =>
    refine ⟨⟨hr, pend ++ [Request.save msg], ?_, ?_⟩, ?_⟩
    · simp [LogWorker.request, LogWorker.save, LogWorker.bgSend, hq, Request.callback]
    · simp [addedSinks_append, hp, addedSinks]
    · simp [LogWorker.request, LogWorker.save, LogWorker.bgSend, addedSinks]

theorem requests_keep_registry (env : Collaborators) (reqs : List Request) (lw : LogWorker)
    (h : OnlySavesQueued lw) :
    OnlySavesQueued (lw.requests env reqs)
      ∧ (lw.requests env reqs).proc._sinks = lw.proc._sinks ++ addedSinks reqs := by
  induction reqs generalizing lw with
  | nil => exact ⟨h, by simp [LogWorker.requests, addedSinks]⟩
  | cons r rs ih =>
    obtain ⟨h1, h2⟩ := request_keeps_registry env r lw h
    obtain ⟨h3, h4⟩ := ih (lw.request env r) h1
    have hstep : lw.requests env (r :: rs) = (lw.request env r).requests env rs := rfl
    rw [hstep]
    refine ⟨h3, ?_⟩
    rw [h4, h2, List.append_assoc, ← addedSinks_append]
    rfl

/-- Draining after a sequence of calls is executing the queue followed by the
callbacks of the calls. -/
theorem drain_requests (env : Collaborators) (reqs : List Request) (lw : LogWorker) :
    ((lw.requests env reqs).drain env).proc
      = Active.run env (lw.queue ++ reqs.map Request.callback) lw.proc := by
  induction reqs generalizing lw with
  | nil => simp [LogWorker.requests, LogWorker.drain]
  | cons r rs ih =>
    have hstep : lw.requests env (r :: rs) = (lw.request env r).requests env rs := rfl
    rw [hstep, ih]
    cases r with
    | addWrappedSink sink =>
      show Active.run env ([] ++ rs.map Request.callback)
          (Active.run env (lw.queue ++ [Callback.bg_addsink_call sink]) lw.proc)
        = Active.run env (lw.queue ++ (Callback.bg_addsink_call sink :: rs.map Request.callback))
            lw.proc
      rw [List.nil_append, ← run_append, List.append_assoc]
      rfl
    | save msg =>
      simp [LogWorker.request, LogWorker.save, LogWorker.bgSend, Request.callback]

theorem createWithNoSink_onlySaves : OnlySavesQueued LogWorker.createWithNoSink :=
  ⟨rfl, [], rfl, rfl⟩

/-- C8: the registration callback puts the new sink at the end of the registry and
keeps the entries that were there, in their order; executing a save keeps the
registry; hence after any sequence of `addWrappedSink` and `save` calls on a new
worker the registry is the list of the added sinks in the order of the calls, both
right after the calls and once the queue is drained. -/
theorem registry_is_added_sinks_in_order (env : Collaborators) :
    (∀ (sink : SinkWrapper) (w : Process),
        ((Callback.bg_addsink_call sink).exec env w)._sinks = w._sinks ++ [sink])
      ∧ (∀ (msg : LogMessage) (w : Process),
        ((Callback.bgSave msg).exec env w)._sinks = w._sinks)
      ∧ (∀ reqs : List Request,
        (LogWorker.createWithNoSink.requests env reqs).proc._sinks = addedSinks reqs)
      ∧ (∀ reqs : List Request,
        ((LogWorker.createWithNoSink.requests env reqs).drain env).proc._sinks
          = addedSinks reqs) := by
  refine ⟨fun _ _ => rfl, ?_, ?_, ?_⟩
  · intro msg w
    simp [Callback.exec, bgSave_eq]
  · intro reqs
    rw [(requests_keep_registry env reqs _ createWithNoSink_onlySaves).2]
    rfl
  · intro reqs
    rw [drain_requests, show LogWorker.createWithNoSink.queue = [] from rfl, List.nil_append,
      run_requests env reqs _ rfl]
    rfl


/-! ## What one sink receives -/

theorem received_sendEvents (sink : SinkWrapper) (sinks : List SinkWrapper)
    (msg : LogMessage) :
    received sink (sendEvents sinks msg) = List.replicate (sinks.count sink) msg := by
  induction sinks with
  | nil => rfl
  | cons s l ih =>
    have hcons : received sink (sendEvents (s :: l) msg)
        = (if s = sink then [msg] else []) ++ received sink (sendEvents l msg) := by
      by_cases hs : s = sink <;> simp [received, sendEvents, hs]
    rw [hcons, ih]
    by_cases hs : s = sink
    · subst hs
      simp [List.replicate_succ]
    · simp [hs, List.count_cons]

theorem received_fanoutEvents (env : Collaborators) (sink : SinkWrapper)
    (sinks : List SinkWrapper) (msg : LogMessage) :
    received sink (fanoutEvents env sinks msg) = List.replicate (sinks.count sink) msg := by
  cases sinks with
  | nil => rfl
  | cons s l => exact received_sendEvents sink (s :: l) msg

theorem received_fanoutEvents_of_mem (env : Collaborators) (sink : SinkWrapper)
    (sinks : List SinkWrapper) (msg : LogMessage) (hnd : sinks.Nodup) (hm : sink ∈ sinks) :
    received sink (fanoutEvents env sinks msg) = [msg] := by
  rw [received_fanoutEvents, List.count_eq_one_of_mem hnd hm]
  rfl

theorem received_fanoutEvents_of_not_mem (env : Collaborators) (sink : SinkWrapper)
    (sinks : List SinkWrapper) (msg : LogMessage) (hm : sink ∉ sinks) :
    received sink (fanoutEvents env sinks msg) = [] := by
  rw [received_fanoutEvents, List.count_eq_zero_of_not_mem hm]
  rfl

/-- A sink that is registered, once, receives every message saved from then on. -/
theorem received_requestEvents_of_mem (env : Collaborators) (sink : SinkWrapper)
    (reqs : List Request) (sinks : List SinkWrapper) (hm : sink ∈ sinks)
    (hnd : (sinks ++ addedSinks reqs).Nodup) :
    received sink (requestEvents env sinks reqs) = savedMessages reqs := by
  induction reqs generalizing sinks with
  | nil => rfl
  | cons r rs ih =>
    cases r with
    | addWrappedSink s =>
      have hnd2 : ((sinks ++ [s]) ++ addedSinks rs).Nodup := by
        simpa [addedSinks, List.append_assoc] using hnd
      exact ih (sinks ++ [s]) (List.mem_append_left _ hm) hnd2
    | save msg =>
      have hnd2 : (sinks ++ addedSinks rs).Nodup := hnd
      show received sink (fanoutEvents env sinks msg ++ requestEvents env sinks rs)
        = msg :: savedMessages rs
      rw [received_append, ih sinks hm hnd2,
        received_fanoutEvents_of_mem env sink sinks msg hnd.of_append_left hm]
      rfl

/-- A sink that is registered later receives exactly the messages saved after its
registration. -/
theorem received_requestEvents_later (env : Collaborators) (sink : SinkWrapper)
    (pre post : List Request) (sinks : List SinkWrapper) (hm : sink ∉ sinks)
    (hnd : (sinks ++ addedSinks (pre ++ Request.addWrappedSink sink :: post)).Nodup) :
    received sink (requestEvents env sinks (pre ++ Request.addWrappedSink sink :: post))
      = savedMessages post := by
  induction pre generalizing sinks with
  | nil =>
    have hnd2 : ((sinks ++ [sink]) ++ addedSinks post).Nodup := by
      simpa [addedSinks, List.append_assoc] using hnd
    exact received_requestEvents_of_mem env sink post (sinks ++ [sink])
      (List.mem_append_right _ (List.mem_singleton_self sink)) hnd2
  | cons r rs ih =>
    cases r with
    | addWrappedSink s =>
      have hnd2 : ((sinks ++ [s]) ++
          addedSinks (rs ++ Request.addWrappedSink sink :: post)).Nodup := by
        simpa [addedSinks, List.append_assoc] using hnd
      have hne : sink ≠ s := by
        intro he
        subst he
        have h3 := (List.nodup_append.mp hnd).2.1
        simp [addedSinks, addedSinks_append] at h3
      have hm2 : sink ∉ sinks ++ [s] := by
        simp [hm, hne]
      exact ih (sinks ++ [s]) hm2 hnd2
    | save msg =>
      have hnd2 : (sinks ++ addedSinks (rs ++ Request.addWrappedSink sink :: post)).Nodup :=
        hnd
      show received sink (fanoutEvents env sinks msg ++
          requestEvents env sinks (rs ++ Request.addWrappedSink sink :: post))
        = savedMessages post
      rw [received_append, ih sinks hm hnd2,
        received_fanoutEvents_of_not_mem env sink sinks msg hm]
      rfl

theorem deliveries_fanoutEvents_length (env : Collaborators) (sinks : List SinkWrapper)
    (msg : LogMessage) : (deliveries (fanoutEvents env sinks msg)).length = sinks.length := by
  cases sinks with
  | nil => rfl
  | cons s l =>
    show (deliveries (sendEvents (s :: l) msg)).length = (s :: l).length
    rw [deliveries_sendEvents, List.length_map]

/-- C10: on a new worker, for every sequence of `addWrappedSink` and `save` calls
that registers each sink once, executed in queue order: a sink receives exactly
the messages saved after its registration, once each and in order (so none of the
messages saved before it); and one execution of `bgSave` makes as many hand-overs
as the registry has entries. -/
theorem sink_receives_exactly_later_saves (env : Collaborators) (reqs : List Request)
    (hnd : (addedSinks reqs).Nodup) :
    (∀ (pre post : List Request) (sink : SinkWrapper),
        reqs = pre ++ Request.addWrappedSink sink :: post →
        received sink ((LogWorker.createWithNoSink.requests env reqs).drain env).proc.trace
          = savedMessages post)
      ∧ (∀ (msg : LogMessage) (w : Process),
        (deliveries (newEvents w (bgSave env msg w))).length = w._sinks.length) := by
  constructor
  · intro pre post sink hreq
    rw [drain_requests, show LogWorker.createWithNoSink.queue = [] from rfl, List.nil_append,
      run_requests env reqs _ rfl]
    show received sink ([] ++ requestEvents env [] reqs) = savedMessages post
    rw [List.nil_append]
    subst hreq
    exact received_requestEvents_later env sink pre post [] (List.not_mem_nil sink)
      (by simpa using hnd)
  · intro msg w
    have ht : (bgSave env msg w).trace = w.trace ++ fanoutEvents env w._sinks msg := by
      rw [bgSave_eq]
    rw [newEvents_of_trace ht, deliveries_fanoutEvents_length]

/-- C10, at a concrete input: save `"A"`, register sink 1, save `"B"`, register
sink 2: sink 1 receives `"B"` only. -/
theorem sink_receives_exactly_later_saves_witness :
    (addedSinks [Request.save msgA, Request.addWrappedSink 1, Request.save msgB,
        Request.addWrappedSink 2]).Nodup
      ∧ received 1 ((LogWorker.createWithNoSink.requests sampleEnv
          [Request.save msgA, Request.addWrappedSink 1, Request.save msgB,
            Request.addWrappedSink 2]).drain sampleEnv).proc.trace = [msgB] :=
  ⟨by decide,
    (sink_receives_exactly_later_saves sampleEnv
      [Request.save msgA, Request.addWrappedSink 1, Request.save msgB,
        Request.addWrappedSink 2] (by decide)).1
      [Request.save msgA] [Request.save msgB, Request.addWrappedSink 2] 1 rfl⟩


/-! ## Register, save, tear down -/

theorem foldl_addWrappedSink (env : Collaborators) (sinks : List SinkWrapper) (w : Process)
    (h : w.status = Status.running) :
    sinks.foldl (fun (acc : LogWorker) sink => acc.addWrappedSink env sink)
        ({ queue := [], proc := w } : LogWorker)
      = ({ queue := [], proc := { w with _sinks := w._sinks ++ sinks } } : LogWorker) := by
  induction sinks generalizing w with
  | nil => simp
  | cons s l ih =>
    have hstep : LogWorker.addWrappedSink env s { queue := [], proc := w }
        = { queue := [], proc := sinksPushBack s w } := by
      simp [LogWorker.addWrappedSink, LogWorker.spawnTaskAndWait, Active.run, h, Callback.exec]
    rw [List.foldl_cons, hstep, ih (sinksPushBack s w) h]
    simp [sinksPushBack]

theorem foldl_save (msgs : List LogMessage) (lw : LogWorker) :
    msgs.foldl (fun (acc : LogWorker) msg => acc.save msg) lw
      = ({ queue := lw.queue ++ msgs.map Callback.bgSave, proc := lw.proc } : LogWorker) := by
  induction msgs generalizing lw with
  | nil => simp
  | cons m l ih =>
    rw [List.foldl_cons, ih]
    simp [LogWorker.save, LogWorker.bgSend]

theorem run_saves (env : Collaborators) (msgs : List LogMessage) (w : Process)
    (h : w.status = Status.running) :
    Active.run env (msgs.map Callback.bgSave) w
      = { w with trace := w.trace ++ msgs.flatMap (fanoutEvents env w._sinks) } := by
  induction msgs generalizing w with
  | nil => simp [Active.run]
  | cons m l ih =>
    have hs : (bgSave env m w).status = Status.running := by rw [bgSave_eq]; exact h
    rw [List.map_cons, run_cons_running env _ _ w h]
    simp only [Callback.exec]
    rw [ih _ hs, bgSave_eq]
    simp [List.flatMap_cons]

theorem registerSaveTeardown_eq (env : Collaborators) (sinks : List SinkWrapper)
    (msgs : List LogMessage) :
    registerSaveTeardown env sinks msgs
      = { queue := [],
          proc := { _sinks := [], shutdown := true, status := Status.running,
                    trace := msgs.flatMap (fanoutEvents env sinks) ++ [Event.sinksClear] } } := by
  unfold registerSaveTeardown
  have h1 := foldl_addWrappedSink env sinks (freshProcess []) rfl
  have h1b : LogWorker.createWithNoSink = { queue := [], proc := freshProcess [] } := rfl
  simp only [h1b, h1, foldl_save]
  simp only [LogWorker.destroy, LogWorker.spawnTaskAndWait, List.nil_append, run_append]
  rw [run_saves env msgs _ rfl]
  simp [Active.run, shutDownLoggingForActiveOnly, freshProcess, Callback.exec, sinksClear]

theorem received_rounds (env : Collaborators) (sink : SinkWrapper) (sinks : List SinkWrapper)
    (msgs : List LogMessage) (hnd : sinks.Nodup) (hm : sink ∈ sinks) :
    received sink (msgs.flatMap (fanoutEvents env sinks)) = msgs := by
  induction msgs with
  | nil => rfl
  | cons m l ih =>
    rw [List.flatMap_cons, received_append, ih,
      received_fanoutEvents_of_mem env sink sinks m hnd hm]
    rfl

theorem deliveries_rounds (env : Collaborators) (sinks : List SinkWrapper)
    (msgs : List LogMessage) (hne : sinks ≠ []) :
    deliveries (msgs.flatMap (fanoutEvents env sinks))
      = msgs.flatMap (fun msg => sinks.map (fun sink => (sink, msg))) := by
  induction msgs with
  | nil => rfl
  | cons m l ih =>
    have hf : fanoutEvents env sinks m = sendEvents sinks m := by
      cases sinks with
      | nil => exact absurd rfl hne
      | cons s t => rfl
    rw [List.flatMap_cons, List.flatMap_cons, deliveries_append, ih, hf, deliveries_sendEvents]

/-- C1: register the distinct sinks of a list, save a finite sequence of messages,
tear down, the callbacks being executed in queue order. Then the trace is the
rounds of the saves, one after the other, followed by the clearing of the registry
as the last event; every registered sink has received exactly the saved messages,
once each and in submission order, all of it before the clear; every round hands
the message to all sinks in registration order; the registry ends empty. -/
theorem every_sink_receives_all_saves_before_clear (env : Collaborators)
    (sinks : List SinkWrapper) (msgs : List LogMessage) (hnd : sinks.Nodup) :
    (registerSaveTeardown env sinks msgs).proc.trace
        = msgs.flatMap (fanoutEvents env sinks) ++ [Event.sinksClear]
      ∧ (∀ sink ∈ sinks, received sink (msgs.flatMap (fanoutEvents env sinks)) = msgs)
      ∧ (∀ sink ∈ sinks,
          received sink (registerSaveTeardown env sinks msgs).proc.trace = msgs)
      ∧ (sinks ≠ [] → deliveries (registerSaveTeardown env sinks msgs).proc.trace
          = msgs.flatMap (fun msg => sinks.map (fun sink => (sink, msg))))
      ∧ (registerSaveTeardown env sinks msgs).proc._sinks = []
      ∧ (registerSaveTeardown env sinks msgs).queue = [] := by
  rw [registerSaveTeardown_eq]
  refine ⟨rfl, ?_, ?_, ?_, rfl, rfl⟩
  · intro sink hm
    exact received_rounds env sink sinks msgs hnd hm
  · intro sink hm
    show received sink (msgs.flatMap (fanoutEvents env sinks) ++ [Event.sinksClear]) = msgs
    rw [received_append, received_rounds env sink sinks msgs hnd hm]
    exact List.append_nil msgs
  · intro hne
    show deliveries (msgs.flatMap (fanoutEvents env sinks) ++ [Event.sinksClear]) = _
    rw [deliveries_append, deliveries_rounds env sinks msgs hne]
    exact List.append_nil _

/-- C1, scenario A: sinks 1 and 2, `save("A")`, `save("B")`, teardown; both sinks
have received `[A, B]`. -/
theorem every_sink_receives_all_saves_before_clear_witness :
    [1, 2].Nodup
      ∧ received 1 (registerSaveTeardown sampleEnv [1, 2] [msgA, msgB]).proc.trace
        = [msgA, msgB]
      ∧ received 2 (registerSaveTeardown sampleEnv [1, 2] [msgA, msgB]).proc.trace
        = [msgA, msgB] :=
  ⟨by decide,
    (every_sink_receives_all_saves_before_clear sampleEnv [1, 2] [msgA, msgB]
      (by decide)).2.2.1 1 (by decide),
    (every_sink_receives_all_saves_before_clear sampleEnv [1, 2] [msgA, msgB]
      (by decide)).2.2.1 2 (by decide)⟩

/-! ## Saving after shutdown -/

end g2
